import Mathlib

/-!
Verification of the sport_edge core engine: odds math, Elo rating engine,
isotonic calibrator, backtest simulator and props hit rates.

Python floats are modelled as exact rationals (`ℚ`) wherever the code only
uses field operations and comparisons, and as real numbers (`ℝ`) for the Elo
component, whose expected-score formula needs the real power `10 ^ (x / 400)`.
-/

namespace SportEdge

/-! ## Odds math (`src/edge/odds_math.py`) -/

/-- `american_to_implied_prob` from `src/edge/odds_math.py`:
negative odds give `|o| / (|o| + 100)`, otherwise `100 / (o + 100)`. -/
def american_to_implied_prob (americanOdds : ℚ) : ℚ :=
  if americanOdds < 0 then |americanOdds| / (|americanOdds| + 100)
  else 100 / (americanOdds + 100)

/-- `american_to_decimal` from `src/edge/odds_math.py`:
negative odds give `1 + 100 / |o|`, otherwise `1 + o / 100`. -/
def american_to_decimal (americanOdds : ℚ) : ℚ :=
  if americanOdds < 0 then 1 + 100 / |americanOdds|
  else 1 + americanOdds / 100

/-- `de_vig` from `src/edge/odds_math.py`: raises `ValueError` when the total
is zero, otherwise divides each raw probability by the total. -/
def de_vig (pHomeRaw pAwayRaw : ℚ) : Except String (ℚ × ℚ) :=
  let total := pHomeRaw + pAwayRaw
  if total = 0 then Except.error "Total probability cannot be zero"
  else Except.ok (pHomeRaw / total, pAwayRaw / total)

/-- `expected_value` from `src/edge/odds_math.py`. -/
def expected_value (pTrue decimalOdds : ℚ) : ℚ :=
  pTrue * (decimalOdds - 1) - (1 - pTrue)

/-- `kelly_fraction` from `src/edge/odds_math.py`; the Python `fraction`
parameter defaults to `1.0`, which callers here pass explicitly. -/
def kelly_fraction (pTrue decimalOdds fraction : ℚ) : ℚ :=
  let edge := pTrue * decimalOdds - 1
  if edge ≤ 0 then 0
  else max 0 (edge / (decimalOdds - 1) * fraction)

/-- The side of a two-way market; the Python code uses the strings
`"home"` / `"away"` and rejects anything else up front. -/
inductive Side where
  | home
  | away
deriving DecidableEq, Repr

/-- The string value the Python code uses for a side. -/
def sideStr : Side → String
  | Side.home => "home"
  | Side.away => "away"

/-- Result record of `compute_edge_from_american`. -/
structure EdgeInfo where
  pMarketRaw : ℚ
  pMarketFair : ℚ
  decimalOdds : ℚ
  ev : ℚ
  edgePct : ℚ
deriving DecidableEq, Repr

/-- `compute_edge_from_american` from `src/edge/odds_math.py`; the `ValueError`
raised by `de_vig` propagates to the caller. -/
def compute_edge_from_american (pTrue homeMl awayMl : ℚ) (side : Side) :
    Except String EdgeInfo :=
  let odds := match side with | Side.home => homeMl | Side.away => awayMl
  let pHomeRaw := american_to_implied_prob homeMl
  let pAwayRaw := american_to_implied_prob awayMl
  match de_vig pHomeRaw pAwayRaw with
  | Except.error e => Except.error e
  | Except.ok (pHomeFair, pAwayFair) =>
    let pMarketFair := match side with | Side.home => pHomeFair | Side.away => pAwayFair
    let decimal := american_to_decimal odds
    Except.ok
      { pMarketRaw := match side with | Side.home => pHomeRaw | Side.away => pAwayRaw
        pMarketFair := pMarketFair
        decimalOdds := decimal
        ev := expected_value pTrue decimal
        edgePct := (pTrue - pMarketFair) * 100 }

/-! ## Backtest simulator (`src/backtest/run.py`) -/

/-- One input row of `run_backtest`: an Elo feature row joined with the
closing odds looked up from the database (`none` when no odds record
exists, in which case the row is skipped). -/
structure BtRow where
  gameId : ℕ
  date : ℤ
  pHome : ℚ
  pAway : ℚ
  winner : String
  odds : Option (ℚ × ℚ)
deriving DecidableEq, Repr

/-- One ledger entry of `run_backtest`. -/
structure Bet where
  gameId : ℕ
  date : ℤ
  side : Side
  odds : ℚ
  stake : ℚ
  ev : ℚ
  edgePct : ℚ
  won : Bool
  profit : ℚ
  bankroll : ℚ
deriving DecidableEq, Repr

/-- The side-selection branch of `run_backtest` (`src/backtest/run.py`
lines 75-82): home when `home_ev > ev_threshold` and `home_ev > away_ev`,
else away when `away_ev > ev_threshold`, else no bet. -/
def chooseSide (homeEv awayEv evThreshold : ℚ) : Option Side :=
  if homeEv > evThreshold ∧ homeEv > awayEv then some Side.home
  else if awayEv > evThreshold then some Side.away
  else none

/-- Result record of `run_backtest`; the `avg_ev` / `avg_edge` diagnostics and
the unused per-row bankroll list are not modelled. -/
structure BacktestResult where
  totalBets : ℕ
  totalStaked : ℚ
  totalProfit : ℚ
  roi : ℚ
  winRate : ℚ
  maxDrawdown : ℚ
  finalBankroll : ℚ
  bets : List Bet
deriving DecidableEq, Repr

/-- Running state of the `run_backtest` loop. -/
structure BtState where
  bets : List Bet
  bankroll : ℚ
deriving DecidableEq, Repr

/-- One loop iteration of `run_backtest` for a row that survived the
`idx < min_games` skip: rows without odds are skipped, otherwise the edge is
computed for both sides and a bet is possibly placed. -/
def btStep (evThreshold stakeSize : ℚ) (st : BtState) (row : BtRow) :
    Except String BtState :=
  match row.odds with
  | none => Except.ok st
  | some (homeMl, awayMl) =>
    match compute_edge_from_american row.pHome homeMl awayMl Side.home with
    | Except.error e => Except.error e
    | Except.ok homeEdge =>
      match compute_edge_from_american row.pAway homeMl awayMl Side.away with
      | Except.error e => Except.error e
      | Except.ok awayEdge =>
        match chooseSide homeEdge.ev awayEdge.ev evThreshold with
        | none => Except.ok st
        | some side =>
          let bestEdge := match side with | Side.home => homeEdge | Side.away => awayEdge
          let bestOdds := match side with | Side.home => homeMl | Side.away => awayMl
          let won := row.winner = sideStr side
          let profit := if won then stakeSize * (bestEdge.decimalOdds - 1) else -stakeSize
          let newBankroll := st.bankroll + profit
          Except.ok
            { bets := st.bets ++
                [{ gameId := row.gameId, date := row.date, side := side,
                   odds := bestOdds, stake := stakeSize, ev := bestEdge.ev,
                   edgePct := bestEdge.edgePct, won := won, profit := profit,
                   bankroll := newBankroll }]
              bankroll := newBankroll }

/-- Folds `btStep` over the rows, propagating a raised error. -/
def btFold (evThreshold stakeSize : ℚ) : BtState → List BtRow → Except String BtState
  | st, [] => Except.ok st
  | st, r :: rs =>
    match btStep evThreshold stakeSize st r with
    | Except.error e => Except.error e
    | Except.ok st' => btFold evThreshold stakeSize st' rs

/-- `np.maximum.accumulate` on a list that starts with accumulator `m`. -/
def runMaxFrom (m : ℚ) : List ℚ → List ℚ
  | [] => []
  | x :: xs => max m x :: runMaxFrom (max m x) xs

/-- `np.maximum.accumulate`: elementwise running maximum. -/
def runningMax : List ℚ → List ℚ
  | [] => []
  | x :: xs => x :: runMaxFrom x xs

/-- `.max()` of a nonempty array (0 for the empty list, which the code never
reaches because the branch is guarded by `bets` being nonempty). -/
def listMax : List ℚ → ℚ
  | [] => 0
  | x :: xs => xs.foldl max x

/-- `.min()` of a nonempty array, same convention as `listMax`. -/
def listMin : List ℚ → ℚ
  | [] => 0
  | x :: xs => xs.foldl min x

/-- `max_drawdown` of `run_backtest` (`src/backtest/run.py` lines 129-133):
the maximum of `running_max - cumulative` over the recorded bankroll values. -/
def maxDrawdownOf (bankrolls : List ℚ) : ℚ :=
  listMax (List.zipWith (fun a b => a - b) (runningMax bankrolls) bankrolls)

/-- `run_backtest` from `src/backtest/run.py`.  The positional
`idx < min_games` skip is embedded as `List.drop minGames`; drawdown and the
other metrics are computed from the per-bet ledger exactly as in the source. -/
def run_backtest (rows : List BtRow) (evThreshold stakeSize : ℚ) (minGames : ℕ) :
    Except String BacktestResult :=
  match btFold evThreshold stakeSize ⟨[], 0⟩ (rows.drop minGames) with
  | Except.error e => Except.error e
  | Except.ok st =>
    if st.bets = [] then
      Except.ok
        { totalBets := 0, totalStaked := 0, totalProfit := 0, roi := 0,
          winRate := 0, maxDrawdown := 0, finalBankroll := 0, bets := [] }
    else
      let totalBets := st.bets.length
      let totalStaked := (totalBets : ℚ) * stakeSize
      let totalProfit := (st.bets.map Bet.profit).sum
      let roi := if totalStaked > 0 then totalProfit / totalStaked * 100 else 0
      let winRate := ((st.bets.countP Bet.won : ℚ) / (totalBets : ℚ)) * 100
      Except.ok
        { totalBets := totalBets, totalStaked := totalStaked,
          totalProfit := totalProfit, roi := roi, winRate := winRate,
          maxDrawdown := maxDrawdownOf (st.bets.map Bet.bankroll),
          finalBankroll := st.bankroll, bets := st.bets }

/-- The peak bankroll value reached over the recorded per-bet bankrolls. -/
def bankrollPeak (b : BacktestResult) : ℚ :=
  listMax (b.bets.map Bet.bankroll)

/-- The minimum bankroll value reached over the recorded per-bet bankrolls. -/
def bankrollMin (b : BacktestResult) : ℚ :=
  listMin (b.bets.map Bet.bankroll)

/-! ## Isotonic calibrator (`src/scripts/live_games.py`, `IsotonicCalibrator`) -/

/-- A PAVA block `[rangeStart, rangeEnd, weightedSum, weightTotal]` as kept in
the `blocks` stack of `IsotonicCalibrator.fit`. -/
structure PavBlock where
  st : ℚ
  ed : ℚ
  ws : ℚ
  wt : ℚ
deriving DecidableEq, Repr

/-- The mean `weightedSum / weightTotal` of a block. -/
def blockMean (b : PavBlock) : ℚ := b.ws / b.wt

/-- Pushes a new block onto the stack (head = top), merging while the block
below the top has a strictly greater mean — the `while` loop of
`IsotonicCalibrator.fit`. -/
def pavPush : List PavBlock → PavBlock → List PavBlock
  | [], b => [b]
  | top :: rest, b =>
    if blockMean top > blockMean b then
      pavPush rest ⟨top.st, b.ed, top.ws + b.ws, top.wt + b.wt⟩
    else b :: top :: rest

/-- One calibration bin `(rangeStart, rangeEnd, mean)` of the fitted
`IsotonicCalibrator._bins`. -/
structure CalBin where
  lo : ℚ
  hi : ℚ
  mean : ℚ
deriving DecidableEq, Repr

/-- One input sample of `IsotonicCalibrator.fit`:
`(predicted probability, outcome, weight)`. -/
structure CalSample where
  p : ℚ
  y : ℚ
  w : ℚ
deriving DecidableEq, Repr

/-- `IsotonicCalibrator.fit`: stable-sort the samples by predicted
probability (Python's `sorted(..., key=lambda x: x[0])`, embedded as the
stable `List.insertionSort`), run pool-adjacent-violators over a block stack,
and convert the final blocks to `(rangeStart, rangeEnd, mean)` bins. -/
def isotonicFit (samples : List CalSample) : List CalBin :=
  let data := List.insertionSort (fun a b => a.p ≤ b.p) samples
  let blocks := data.foldl (fun bs s => pavPush bs ⟨s.p, s.p, s.y * s.w, s.w⟩) []
  blocks.reverse.map (fun b => ⟨b.st, b.ed, blockMean b⟩)

/-- `IsotonicCalibrator.predict`: with no bins, the identity; otherwise the
mean of the first bin whose range end is `≥ prob`, falling back to the last
bin's mean. -/
def isotonicPredict : List CalBin → ℚ → ℚ
  | [], prob => prob
  | b :: bs, prob =>
    if prob ≤ b.hi then b.mean
    else
      match bs with
      | [] => b.mean
      | _ :: _ => isotonicPredict bs prob

/-- Modelled from the spec's words for the refinement claim about `predict`:
"return the mean of the first block whose `rangeEnd >= p`; if `p` exceeds all
ranges, return the last block's mean", identity on an empty calibrator. -/
def specFirstBlockMean (bins : List CalBin) (p : ℚ) : ℚ :=
  match bins.find? (fun b => decide (p ≤ b.hi)) with
  | some b => b.mean
  | none =>
    match bins.getLast? with
    | some b => b.mean
    | none => p

/-! ## Props hit rates (`src/props/models.py`, `src/props/analyzer.py`) -/

/-- `GameLog` from `src/props/models.py`; the stat map is an association
list. -/
structure GameLog where
  gameId : String
  date : ℤ
  opponent : String
  isHome : Bool
  minutes : ℚ
  stats : List (String × ℚ)
deriving DecidableEq, Repr

/-- `GameLog.get_stat`: look the stat up, defaulting to 0. -/
def getStat (log : GameLog) (statType : String) : ℚ :=
  (log.stats.lookup statType).getD 0

/-- `PlayerStats` from `src/props/models.py` (identification fields plus the
ordered game log). -/
structure PlayerStats where
  playerId : String
  playerName : String
  team : String
  league : String
  position : String
  gameLogs : List GameLog
deriving DecidableEq, Repr

/-- The window `self.game_logs[-last_n:] if last_n else self.game_logs` used
by the aggregation methods: the whole log when `last_n` is absent (or the
falsy 0), otherwise the last `n` games. -/
def windowLogs (ps : PlayerStats) (lastN : Option ℕ) : List GameLog :=
  match lastN with
  | none => ps.gameLogs
  | some n => if n = 0 then ps.gameLogs else ps.gameLogs.drop (ps.gameLogs.length - n)

/-- `PlayerStats.get_hit_rate` (`src/props/models.py` lines 90-96): the share
of window games whose stat value is strictly greater than the line; 0 for an
empty window. -/
def get_hit_rate (ps : PlayerStats) (statType : String) (line : ℚ)
    (lastN : Option ℕ) : ℚ :=
  let logs := windowLogs ps lastN
  if logs = [] then 0
  else ((logs.countP (fun log => decide (getStat log statType > line)) : ℚ)) / (logs.length : ℚ)

/-- The three hit rates computed by `PropsAnalyzer.analyze_prop`
(`src/props/analyzer.py` lines 81-83): season, last 10 and last 5 games. -/
def analyzerHitRates (ps : PlayerStats) (statType : String) (line : ℚ) :
    ℚ × ℚ × ℚ :=
  (get_hit_rate ps statType line none,
   get_hit_rate ps statType line (some 10),
   get_hit_rate ps statType line (some 5))

/-! ## Elo rating engine (`src/features/build.py`) -/

/-- `EloRatingSystem`: parameters plus the mutable `ratings` dict, modelled as
an association list with dict lookup/assignment semantics. -/
structure EloSystem where
  initialElo : ℝ
  kFactor : ℝ
  homeAdvantage : ℝ
  ratings : List (String × ℝ)

/-- The rating the system reports for a team: the stored value, or the
initial rating when the team is absent. -/
noncomputable def ratingOf (s : EloSystem) (team : String) : ℝ :=
  (s.ratings.lookup team).getD s.initialElo

/-- `EloRatingSystem.get_rating`: returns the stored rating, lazily recording
the initial rating on first access (the observable dict insertion). -/
noncomputable def getRating (s : EloSystem) (team : String) : ℝ × EloSystem :=
  match s.ratings.lookup team with
  | some r => (r, s)
  | none => (s.initialElo, { s with ratings := (team, s.initialElo) :: s.ratings })

/-- Python dict assignment `self.ratings[team] = r`. -/
def dictInsert (l : List (String × ℝ)) (team : String) (r : ℝ) : List (String × ℝ) :=
  match l with
  | [] => [(team, r)]
  | (t, v) :: rest => if t = team then (team, r) :: rest else (t, v) :: dictInsert rest team r

/-- Stores a new rating for a team. -/
def setRating (s : EloSystem) (team : String) (r : ℝ) : EloSystem :=
  { s with ratings := dictInsert s.ratings team r }

/-- `EloRatingSystem.expected_score`: `1 / (1 + 10 ^ ((rating_b - rating_a) / 400))`. -/
noncomputable def expected_score (ratingA ratingB : ℝ) : ℝ :=
  1 / (1 + (10 : ℝ) ^ ((ratingB - ratingA) / 400))

/-- The tuple `(home_elo_before, away_elo_before, home_elo_after,
away_elo_after)` returned by `EloRatingSystem.update_ratings`. -/
structure UpdateResult where
  homeEloBefore : ℝ
  awayEloBefore : ℝ
  homeEloAfter : ℝ
  awayEloAfter : ℝ

/-- `EloRatingSystem.update_ratings` (`src/features/build.py` lines 84-130):
reads both ratings, computes pre-update expectations with the home-advantage
offset, scores the game 1/0, 0/1 or 0.5/0.5, and additively updates both
ratings. -/
noncomputable def update_ratings (s : EloSystem) (homeTeam awayTeam : String)
    (homeScore awayScore : ℤ) : UpdateResult × EloSystem :=
  let homeEloBefore := (getRating s homeTeam).1
  let s1 := (getRating s homeTeam).2
  let awayEloBefore := (getRating s1 awayTeam).1
  let s2 := (getRating s1 awayTeam).2
  let homeEloAdjusted := homeEloBefore + s.homeAdvantage
  let expectedHome := expected_score homeEloAdjusted awayEloBefore
  let expectedAway := 1 - expectedHome
  let actual : ℝ × ℝ :=
    if homeScore > awayScore then (1, 0)
    else if awayScore > homeScore then (0, 1)
    else (0.5, 0.5)
  let homeEloAfter := homeEloBefore + s.kFactor * (actual.1 - expectedHome)
  let awayEloAfter := awayEloBefore + s.kFactor * (actual.2 - expectedAway)
  (⟨homeEloBefore, awayEloBefore, homeEloAfter, awayEloAfter⟩,
   setRating (setRating s2 homeTeam homeEloAfter) awayTeam awayEloAfter)

/-- `EloRatingSystem.predict_game`: reads both ratings, applies the home
advantage, and returns `(p_home_win, p_away_win)`. -/
noncomputable def predict_game (s : EloSystem) (homeTeam awayTeam : String) :
    (ℝ × ℝ) × EloSystem :=
  let homeElo := (getRating s homeTeam).1
  let s1 := (getRating s homeTeam).2
  let awayElo := (getRating s1 awayTeam).1
  let s2 := (getRating s1 awayTeam).2
  let homeEloAdjusted := homeElo + s.homeAdvantage
  let pHome := expected_score homeEloAdjusted awayElo
  ((pHome, 1 - pHome), s2)

/-- One input row of `build_elo_features`; scores are `none` for a game that
is not yet played (`pd.notna` fails). -/
structure GameRec where
  gameId : ℕ
  date : ℤ
  homeTeam : String
  awayTeam : String
  homeScore : Option ℤ
  awayScore : Option ℤ
  winner : Option String
deriving DecidableEq, Repr

/-- One output row of `build_elo_features`. -/
structure EloFeature where
  gameId : ℕ
  date : ℤ
  homeTeam : String
  awayTeam : String
  homeElo : ℝ
  awayElo : ℝ
  eloDiff : ℝ
  pHome : ℝ
  pAway : ℝ
  winner : Option String

/-- One iteration of the `build_elo_features` loop (single-system branch):
read both point-in-time ratings, predict, emit the feature row, then update
the ratings only when both scores are present. -/
noncomputable def eloGameStep (s : EloSystem) (g : GameRec) : EloFeature × EloSystem :=
  let homeElo := (getRating s g.homeTeam).1
  let s1 := (getRating s g.homeTeam).2
  let awayElo := (getRating s1 g.awayTeam).1
  let s2 := (getRating s1 g.awayTeam).2
  let p := (predict_game s2 g.homeTeam g.awayTeam).1
  let s3 := (predict_game s2 g.homeTeam g.awayTeam).2
  let feat : EloFeature :=
    { gameId := g.gameId, date := g.date, homeTeam := g.homeTeam,
      awayTeam := g.awayTeam, homeElo := homeElo, awayElo := awayElo,
      eloDiff := homeElo - awayElo, pHome := p.1, pAway := p.2,
      winner := g.winner }
  match g.homeScore, g.awayScore with
  | some hs, some as' => (feat, (update_ratings s3 g.homeTeam g.awayTeam hs as').2)
  | _, _ => (feat, s3)

/-- The Elo system state after processing a list of games in order. -/
noncomputable def stateAfter (s : EloSystem) : List GameRec → EloSystem
  | [] => s
  | g :: gs => stateAfter (eloGameStep s g).2 gs

/-- A fresh `EloRatingSystem` with an empty ratings dict. -/
def initSystem (initialElo kFactor homeAdvantage : ℝ) : EloSystem :=
  ⟨initialElo, kFactor, homeAdvantage, []⟩

/-- The feature rows produced by folding `eloGameStep` from a state. -/
noncomputable def buildEloFeaturesFrom (s : EloSystem) : List GameRec → List EloFeature
  | [] => []
  | g :: gs => (eloGameStep s g).1 :: buildEloFeaturesFrom (eloGameStep s g).2 gs

/-- `build_elo_features` from `src/features/build.py` (the branch without a
`league` column: one shared `EloRatingSystem`), applied to a games list that
is already chronologically sorted — the source's `sort_values('date')` is the
identity on such input, which is the situation every claim quantifies over. -/
noncomputable def build_elo_features (initialElo kFactor homeAdvantage : ℝ)
    (games : List GameRec) : List EloFeature :=
  buildEloFeaturesFrom (initSystem initialElo kFactor homeAdvantage) games

/-- The teams a game mentions. -/
def gameTeams (g : GameRec) : List String := [g.homeTeam, g.awayTeam]

/-- A games list is chronological when dates strictly increase. -/
def Chronological (games : List GameRec) : Prop :=
  games.Pairwise (fun a b => a.date < b.date)

end SportEdge

namespace SportEdge

/-! Basic facts about the odds math. -/

theorem american_to_implied_prob_pos (o : ℚ) : 0 < american_to_implied_prob o := by
  unfold american_to_implied_prob
  split
  · have h : (0 : ℚ) < |o| := abs_pos.mpr (by linarith)
    positivity
  · have h : (0 : ℚ) ≤ o := le_of_not_lt (by assumption)
    positivity

theorem de_vig_ok_of_ne (p1 p2 : ℚ) (h : p1 + p2 ≠ 0) :
    de_vig p1 p2 = Except.ok (p1 / (p1 + p2), p2 / (p1 + p2)) := by
  unfold de_vig
  simp [h]

/-- C2 counterexample: at `p1 = -1`, `p2 = 0` the sum is `≤ 0`, yet
`de_vig` silently returns the normalized pair `(1, 0)` instead of raising
`InvalidMarket` — it only raises when the sum is exactly 0. -/
theorem de_vig_negative_total_counterexample :
    (-1 : ℚ) + 0 ≤ 0 ∧ de_vig (-1) 0 = Except.ok (1, 0) := by
  constructor
  · norm_num
  · unfold de_vig
    norm_num

/-- C2 amended: `de_vig` raises the `ValueError` exactly when the sum of the
two raw probabilities equals 0; for every nonzero sum — including negative
sums — it silently returns the normalized pair, whose components sum to 1 and
preserve the input ratio. -/
theorem de_vig_amended (p1 p2 : ℚ) :
    (de_vig p1 p2 = Except.error "Total probability cannot be zero" ↔ p1 + p2 = 0)
    ∧ (∀ q1 q2 : ℚ, de_vig p1 p2 = Except.ok (q1, q2) →
        q1 + q2 = 1 ∧ q1 * (p1 + p2) = p1 ∧ q2 * (p1 + p2) = p2) := by
  by_cases h : p1 + p2 = 0
  · refine ⟨⟨fun _ => h, fun _ => by simp [de_vig, h]⟩, ?_⟩
    intro q1 q2 hq
    simp [de_vig, h] at hq
  · constructor
    · rw [de_vig_ok_of_ne p1 p2 h]
      simp [h]
    · intro q1 q2 hq
      rw [de_vig_ok_of_ne p1 p2 h] at hq
      simp only [Except.ok.injEq, Prod.mk.injEq] at hq
      obtain ⟨h1, h2⟩ := hq
      subst h1; subst h2
      refine ⟨?_, ?_, ?_⟩
      · field_simp
      · field_simp
      · field_simp

/-- C2 witness: the amended theorem applied at `p1 = p2 = 1/4`. -/
theorem de_vig_amended_witness :
    de_vig (1/4) (1/4) = Except.ok ((1:ℚ)/2, (1:ℚ)/2) ∧
    (1:ℚ)/2 + 1/2 = 1 ∧ (1:ℚ)/2 * ((1:ℚ)/4 + 1/4) = 1/4 ∧
    (1:ℚ)/2 * ((1:ℚ)/4 + 1/4) = 1/4 :=
  ⟨by unfold de_vig; norm_num,
   (de_vig_amended (1/4) (1/4)).2 (1/2) (1/2) (by unfold de_vig; norm_num)⟩

/-- C5 counterexample: at `p = 1`, `d = 2` (so `p ∈ [0,1]` and `p*d > 1`),
`kelly_fraction` with the default multiplier returns exactly 1, not a value
strictly less than 1. -/
theorem kelly_fraction_counterexample :
    (0:ℚ) ≤ 1 ∧ (1:ℚ) ≤ 1 ∧ (1:ℚ) * 2 > 1 ∧
    kelly_fraction 1 2 1 = 1 ∧ ¬ kelly_fraction 1 2 1 < 1 := by
  have h : kelly_fraction 1 2 1 = 1 := by
    unfold kelly_fraction
    norm_num
  exact ⟨by norm_num, le_refl 1, by norm_num, h, by rw [h]; exact lt_irrefl 1⟩

/-- C5 amended: for `p ∈ [0,1]` and any decimal odds `d`, the default-multiplier
`kelly_fraction` returns 0 whenever `p*d ≤ 1` (which covers every `d ≤ 1`,
and the division branch is never reached there); whenever `p*d > 1` it returns
a strictly positive value that is at most 1, and strictly less than 1 whenever
`p < 1` (it equals 1 only at `p = 1`). -/
theorem kelly_fraction_amended (p d : ℚ) (hp0 : 0 ≤ p) (hp1 : p ≤ 1) :
    (p * d ≤ 1 → kelly_fraction p d 1 = 0)
    ∧ (1 < p * d →
        0 < kelly_fraction p d 1 ∧ kelly_fraction p d 1 ≤ 1 ∧
        (p < 1 → kelly_fraction p d 1 < 1)) := by
  constructor
  · intro h
    unfold kelly_fraction
    simp only [if_pos (by linarith : p * d - 1 ≤ 0)]
  · intro h
    have hp : 0 < p := by
      rcases lt_or_eq_of_le hp0 with h' | h'
      · exact h'
      · exfalso; rw [← h'] at h; simp at h; linarith
    have hd : 0 < d := by
      by_contra hd'
      push_neg at hd'
      nlinarith
    have hpd_le : p * d ≤ d := by nlinarith
    have hd1 : 1 < d := by linarith
    have hden : 0 < d - 1 := by linarith
    have hedge : 0 < p * d - 1 := by linarith
    have hval : kelly_fraction p d 1 = (p * d - 1) / (d - 1) := by
      unfold kelly_fraction
      rw [if_neg (by linarith : ¬ p * d - 1 ≤ 0)]
      rw [mul_one]
      exact max_eq_right (le_of_lt (div_pos hedge hden))
    rw [hval]
    refine ⟨div_pos hedge hden, ?_, ?_⟩
    · rw [div_le_one hden]; linarith
    · intro hplt
      rw [div_lt_one hden]
      nlinarith

/-- C5 witness: the amended theorem applied at `p = 3/5`, `d = 2`. -/
theorem kelly_fraction_amended_witness :
    (0:ℚ) ≤ 3/5 ∧ (3:ℚ)/5 ≤ 1 ∧ 1 < (3:ℚ)/5 * 2 ∧
    0 < kelly_fraction (3/5) 2 1 ∧ kelly_fraction (3/5) 2 1 ≤ 1 ∧
    kelly_fraction (3/5) 2 1 < 1 := by
  have h := (kelly_fraction_amended (3/5) 2 (by norm_num) (by norm_num)).2 (by norm_num)
  exact ⟨by norm_num, by norm_num, by norm_num, h.1, h.2.1, h.2.2 (by norm_num)⟩

/-- C6: the bet selection of `run_backtest` follows the documented asymmetric
rule — home exactly when `homeEV > evThreshold` and `homeEV > awayEV`, else
away exactly when `awayEV > evThreshold`, else no bet; in particular when both
sides exceed the threshold and `awayEV ≥ homeEV`, away is chosen. -/
theorem chooseSide_follows_documented_rule (homeEv awayEv evThreshold : ℚ) :
    (chooseSide homeEv awayEv evThreshold = some Side.home ↔
      homeEv > evThreshold ∧ homeEv > awayEv)
    ∧ (chooseSide homeEv awayEv evThreshold = some Side.away ↔
      ¬(homeEv > evThreshold ∧ homeEv > awayEv) ∧ awayEv > evThreshold)
    ∧ (chooseSide homeEv awayEv evThreshold = none ↔
      ¬(homeEv > evThreshold ∧ homeEv > awayEv) ∧ ¬ awayEv > evThreshold)
    ∧ (homeEv > evThreshold → awayEv > evThreshold → homeEv ≤ awayEv →
      chooseSide homeEv awayEv evThreshold = some Side.away) := by
  unfold chooseSide
  by_cases h1 : homeEv > evThreshold ∧ homeEv > awayEv
  · rw [if_pos h1]
    refine ⟨by simp [h1], ?_, by simp [h1], ?_⟩
    · constructor
      · intro hcontra
        simp at hcontra
      · intro ⟨hn, _⟩
        exact absurd h1 hn
    · intro _ _ hle
      exact absurd h1.2 (not_lt.mpr hle)
  · rw [if_neg h1]
    by_cases h2 : awayEv > evThreshold
    · rw [if_pos h2]
      refine ⟨?_, by simp [h1, h2], ?_, fun _ _ _ => rfl⟩
      · constructor
        · intro hcontra
          simp at hcontra
        · intro hh
          exact absurd hh h1
      · constructor
        · intro hcontra
          simp at hcontra
        · intro ⟨_, hn⟩
          exact absurd h2 hn
    · rw [if_neg h2]
      refine ⟨⟨fun hcontra => by simp at hcontra, fun hh => absurd hh h1⟩,
        ⟨fun hcontra => by simp at hcontra, fun hha => absurd hha.2 h2⟩,
        ⟨fun _ => ⟨h1, h2⟩, fun _ => rfl⟩,
        fun _ ha _ => absurd ha h2⟩

/-- C6 witness: both sides above the threshold with `awayEV ≥ homeEV` picks
away, via the fourth conjunct at `homeEV = 2`, `awayEV = 3`, threshold 1. -/
theorem chooseSide_witness :
    (2:ℚ) > 1 ∧ (3:ℚ) > 1 ∧ (2:ℚ) ≤ 3 ∧ chooseSide 2 3 1 = some Side.away :=
  ⟨by norm_num, by norm_num, by norm_num,
    (chooseSide_follows_documented_rule 2 3 1).2.2.2 (by norm_num) (by norm_num)
      (by norm_num)⟩

/-- C3: the Elo rating update is zero-sum — for every system state, pair of
teams and pair of scores (home win, away win or tie), the home delta and the
away delta reported by `update_ratings` sum to exactly 0 (hence certainly to
0 within 1e-9). -/
theorem update_ratings_zero_sum (s : EloSystem) (homeTeam awayTeam : String)
    (homeScore awayScore : ℤ) :
    ((update_ratings s homeTeam awayTeam homeScore awayScore).1.homeEloAfter -
      (update_ratings s homeTeam awayTeam homeScore awayScore).1.homeEloBefore) +
    ((update_ratings s homeTeam awayTeam homeScore awayScore).1.awayEloAfter -
      (update_ratings s homeTeam awayTeam homeScore awayScore).1.awayEloBefore) = 0 := by
  unfold update_ratings
  split_ifs <;> simp <;> ring

/-! Lazily recording the initial rating on first access never changes the
rating any team reports. -/

theorem ratingOf_getRating (s : EloSystem) (t' t : String) :
    ratingOf (getRating s t').2 t = ratingOf s t := by
  unfold getRating ratingOf
  cases h : s.ratings.lookup t' with
  | some r => rfl
  | none =>
    simp only [List.lookup]
    by_cases he : t = t'
    · subst he
      simp [h]
    · have : (t == t') = false := beq_false_of_ne he
      simp [this]

theorem ratingOf_predict_game (s : EloSystem) (homeTeam awayTeam t : String) :
    ratingOf (predict_game s homeTeam awayTeam).2 t = ratingOf s t := by
  unfold predict_game
  rw [ratingOf_getRating, ratingOf_getRating]

/-- C8: for a game whose home or away score is missing (`pd.notna` fails),
the rating update is skipped and the step is a rating no-op, not an error:
every team reports exactly the same rating after the step as before it. -/
theorem missing_score_noop (s : EloSystem) (g : GameRec) (t : String)
    (h : g.homeScore = none ∨ g.awayScore = none) :
    ratingOf (eloGameStep s g).2 t = ratingOf s t := by
  unfold eloGameStep
  have hmatch : (match g.homeScore, g.awayScore with
      | some hs, some as' => True
      | _, _ => False) → False := by
    rcases h with h | h <;> rw [h] <;> cases g.homeScore <;> cases g.awayScore <;> simp
  cases hH : g.homeScore with
  | some hs =>
    cases hA : g.awayScore with
    | some as' =>
      exfalso
      rcases h with h | h
      · rw [hH] at h; exact Option.noConfusion h
      · rw [hA] at h; exact Option.noConfusion h
    | none =>
      simp only [hH, hA]
      rw [ratingOf_predict_game, ratingOf_getRating, ratingOf_getRating]
  | none =>
    cases hA : g.awayScore <;>
      · simp only [hH, hA]
        rw [ratingOf_predict_game, ratingOf_getRating, ratingOf_getRating]

/-- C8 witness: the no-op theorem applied to a concrete game with a missing
home score. -/
theorem missing_score_noop_witness :
    (⟨7, 3, "H", "A", none, some 101, none⟩ : GameRec).homeScore = none ∧
    ratingOf (eloGameStep (initSystem 1500 20 100)
        ⟨7, 3, "H", "A", none, some 101, none⟩).2 "H" =
      ratingOf (initSystem 1500 20 100) "H" :=
  ⟨rfl, missing_score_noop (initSystem 1500 20 100)
    ⟨7, 3, "H", "A", none, some 101, none⟩ "H" (Or.inl rfl)⟩

/-- C10: the props hit rate counts only window games whose stat value is
strictly greater than the line (`rate * window-size = number of strict hits`),
a game landing exactly on the line is never a hit, and an empty window yields
a hit rate of 0. -/
theorem get_hit_rate_strict_over (ps : PlayerStats) (statType : String)
    (line : ℚ) (lastN : Option ℕ) :
    (windowLogs ps lastN = [] → get_hit_rate ps statType line lastN = 0)
    ∧ get_hit_rate ps statType line lastN * ((windowLogs ps lastN).length : ℚ)
        = ((windowLogs ps lastN).countP
            (fun log => decide (getStat log statType > line)) : ℚ)
    ∧ (∀ log ∈ windowLogs ps lastN, getStat log statType = line →
        decide (getStat log statType > line) = false) := by
  refine ⟨?_, ?_, ?_⟩
  · intro h
    unfold get_hit_rate
    rw [if_pos h]
  · unfold get_hit_rate
    by_cases h : windowLogs ps lastN = []
    · rw [if_pos h, h]
      simp
    · rw [if_neg h]
      have hlen : ((windowLogs ps lastN).length : ℚ) ≠ 0 :=
        Nat.cast_ne_zero.mpr (Nat.pos_iff_ne_zero.mp (List.length_pos.mpr h))
      field_simp
  · intro log _ heq
    rw [heq]
    simp

/-- C10 witness: a player whose only window game lands exactly on the line;
the push is not a hit. -/
theorem get_hit_rate_strict_over_witness :
    getStat ⟨"g1", 0, "OPP", true, 30, [("points", 20)]⟩ "points" = 20 ∧
    decide (getStat (⟨"g1", 0, "OPP", true, 30, [("points", 20)]⟩ : GameLog)
      "points" > (20:ℚ)) = false :=
  ⟨rfl,
    (get_hit_rate_strict_over
      ⟨"p1", "P One", "T", "nba", "G", [⟨"g1", 0, "OPP", true, 30, [("points", 20)]⟩]⟩
      "points" 20 none).2.2
      ⟨"g1", 0, "OPP", true, 30, [("points", 20)]⟩ (by simp [windowLogs]) rfl⟩

/-- C9: for every calibrator bin list and input probability, `predict` returns
the mean of the first bin whose range end is `≥ p` and the last bin's mean
when `p` exceeds all ranges (the spec-worded `specFirstBlockMean`), and a
calibrator fitted with zero samples is the identity. -/
theorem isotonic_predict_refines_spec :
    (∀ (bins : List CalBin) (p : ℚ), isotonicPredict bins p = specFirstBlockMean bins p)
    ∧ (∀ p : ℚ, isotonicPredict (isotonicFit []) p = p) := by
  constructor
  · intro bins
    induction bins with
    | nil => intro p; rfl
    | cons b bs ih =>
      intro p
      by_cases h : p ≤ b.hi
      · unfold isotonicPredict specFirstBlockMean
        rw [if_pos h, List.find?_cons_of_pos _ (by simpa using h)]
      · cases bs with
        | nil =>
          unfold isotonicPredict specFirstBlockMean
          rw [if_neg h, List.find?_cons_of_neg _ (by simpa using h)]
          rfl
        | cons b' bs' =>
          have hstep : isotonicPredict (b :: b' :: bs') p = isotonicPredict (b' :: bs') p := by
            unfold isotonicPredict
            rw [if_neg h]
            rfl
          have hfind : List.find? (fun bb => decide (p ≤ bb.hi)) (b :: b' :: bs')
              = List.find? (fun bb => decide (p ≤ bb.hi)) (b' :: bs') :=
            List.find?_cons_of_neg _ (by simpa using h)
          have hspec : specFirstBlockMean (b :: b' :: bs') p
              = specFirstBlockMean (b' :: bs') p := by
            unfold specFirstBlockMean
            rw [hfind, List.getLast?_cons_cons]
          rw [hstep, ih, hspec]
  · intro p
    rfl

/-! Invariants of the pool-adjacent-violators stack (head = top of stack):
means never increase toward the bottom, ranges are well-formed and ordered. -/

theorem pavPush_chain_mean (stk : List PavBlock) (nb : PavBlock)
    (h : stk.Chain' (fun a b => blockMean b ≤ blockMean a)) :
    (pavPush stk nb).Chain' (fun a b => blockMean b ≤ blockMean a) := by
  induction stk generalizing nb with
  | nil => simp [pavPush]
  | cons top rest ih =>
    unfold pavPush
    by_cases hm : blockMean top > blockMean nb
    · rw [if_pos hm]
      exact ih _ h.tail
    · rw [if_neg hm]
      exact List.chain'_cons.mpr ⟨not_lt.mp hm, h⟩

theorem pavPush_ranges (stk : List PavBlock) (nb : PavBlock)
    (hpw : stk.Pairwise (fun a b => b.ed ≤ a.st))
    (hwf : ∀ c ∈ stk, c.st ≤ c.ed)
    (hub : ∀ c ∈ stk, c.ed ≤ nb.st)
    (hnb : nb.st ≤ nb.ed) :
    (pavPush stk nb).Pairwise (fun a b => b.ed ≤ a.st)
    ∧ (∀ c ∈ pavPush stk nb, c.st ≤ c.ed)
    ∧ (∀ c ∈ pavPush stk nb, c.ed ≤ nb.ed) := by
  induction stk generalizing nb with
  | nil =>
    refine ⟨by simp [pavPush], ?_, ?_⟩ <;>
      · intro c hc
        simp [pavPush] at hc
        subst hc
        first | exact hnb | exact le_refl _
  | cons top rest ih =>
    unfold pavPush
    by_cases hm : blockMean top > blockMean nb
    · rw [if_pos hm]
      have hcons := List.pairwise_cons.mp hpw
      have htop_wf : top.st ≤ top.ed := hwf top (by simp)
      have htop_ub : top.ed ≤ nb.st := hub top (by simp)
      have hrest_wf : ∀ c ∈ rest, c.st ≤ c.ed := fun c hc => hwf c (by simp [hc])
      have hmerged : (⟨top.st, nb.ed, top.ws + nb.ws, top.wt + nb.wt⟩ : PavBlock).st ≤
          (⟨top.st, nb.ed, top.ws + nb.ws, top.wt + nb.wt⟩ : PavBlock).ed := by
        simp only
        linarith
      have hub' : ∀ c ∈ rest, c.ed ≤ (⟨top.st, nb.ed, top.ws + nb.ws, top.wt + nb.wt⟩ : PavBlock).st := by
        intro c hc
        simpa using hcons.1 c hc
      obtain ⟨h1, h2, h3⟩ := ih _ hcons.2 hrest_wf hub' hmerged
      exact ⟨h1, h2, fun c hc => h3 c hc⟩
    · rw [if_neg hm]
      refine ⟨?_, ?_, ?_⟩
      · refine List.pairwise_cons.mpr ⟨?_, hpw⟩
        intro c hc
        exact hub c hc
      · intro c hc
        rcases List.mem_cons.mp hc with hc | hc
        · subst hc; exact hnb
        · exact hwf c hc
      · intro c hc
        rcases List.mem_cons.mp hc with hc | hc
        · subst hc; exact le_refl _
        · exact le_trans (hub c hc) hnb

/-- Folding samples through `pavPush` keeps the stack means a descending
chain. -/
theorem foldl_pavPush_chain (data : List CalSample) :
    ∀ stk : List PavBlock, stk.Chain' (fun a b => blockMean b ≤ blockMean a) →
    (data.foldl (fun bs s => pavPush bs ⟨s.p, s.p, s.y * s.w, s.w⟩) stk).Chain'
      (fun a b => blockMean b ≤ blockMean a) := by
  induction data with
  | nil => intro stk h; exact h
  | cons s rest ih =>
    intro stk h
    exact ih _ (pavPush_chain_mean stk _ h)

/-- Folding probability-sorted samples through `pavPush` keeps the stack
ranges well-formed and ordered. -/
theorem foldl_pavPush_ranges (data : List CalSample) :
    ∀ stk : List PavBlock,
    data.Pairwise (fun a b => a.p ≤ b.p) →
    stk.Pairwise (fun a b => b.ed ≤ a.st) →
    (∀ c ∈ stk, c.st ≤ c.ed) →
    (∀ c ∈ stk, ∀ s ∈ data, c.ed ≤ s.p) →
    (data.foldl (fun bs s => pavPush bs ⟨s.p, s.p, s.y * s.w, s.w⟩) stk).Pairwise
      (fun a b => b.ed ≤ a.st)
    ∧ (∀ c ∈ data.foldl (fun bs s => pavPush bs ⟨s.p, s.p, s.y * s.w, s.w⟩) stk,
        c.st ≤ c.ed) := by
  induction data with
  | nil => intro stk _ hpw hwf _; exact ⟨hpw, hwf⟩
  | cons s rest ih =>
    intro stk hsorted hpw hwf hub
    have hcons := List.pairwise_cons.mp hsorted
    have hpush := pavPush_ranges stk ⟨s.p, s.p, s.y * s.w, s.w⟩ hpw hwf
      (fun c hc => hub c hc s (by simp)) (le_refl _)
    refine ih _ hcons.2 hpush.1 hpush.2.1 ?_
    intro c hc s' hs'
    exact le_trans (hpush.2.2 c hc) (hcons.1 s' hs')

/-- `predict` never returns below the first bin's mean when the means form a
non-decreasing chain. -/
theorem isotonicPredict_ge_head (bins : List CalBin) (q : ℚ) :
    ∀ b : CalBin, bins.Chain' (fun a b => a.mean ≤ b.mean) →
    bins.head? = some b → b.mean ≤ isotonicPredict bins q := by
  induction bins with
  | nil => intro b _ hb; exact absurd hb (by simp)
  | cons b0 bs ih =>
    intro b hchain hb
    have hb0 : b0 = b := by simpa using hb
    rw [← hb0]
    unfold isotonicPredict
    by_cases hq : q ≤ b0.hi
    · rw [if_pos hq]
    · rw [if_neg hq]
      cases bs with
      | nil => exact le_refl _
      | cons b1 bs' =>
        have hc := List.chain'_cons.mp hchain
        exact le_trans hc.1 (ih b1 hc.2 rfl)

/-- `predict` is monotone when the bin means form a non-decreasing chain. -/
theorem isotonicPredict_mono (bins : List CalBin)
    (hchain : bins.Chain' (fun a b => a.mean ≤ b.mean)) :
    ∀ p q : ℚ, p ≤ q → isotonicPredict bins p ≤ isotonicPredict bins q := by
  induction bins with
  | nil => intro p q hpq; exact hpq
  | cons b bs ih =>
    intro p q hpq
    by_cases hp : p ≤ b.hi
    · by_cases hq : q ≤ b.hi
      · unfold isotonicPredict
        rw [if_pos hp, if_pos hq]
      · have hmono : b.mean ≤ isotonicPredict (b :: bs) q := by
          unfold isotonicPredict
          rw [if_neg hq]
          cases bs with
          | nil => exact le_refl _
          | cons b1 bs' =>
            have hc := List.chain'_cons.mp hchain
            exact le_trans hc.1 (isotonicPredict_ge_head (b1 :: bs') q b1 hc.2 rfl)
        calc isotonicPredict (b :: bs) p = b.mean := by
              unfold isotonicPredict; rw [if_pos hp]
          _ ≤ isotonicPredict (b :: bs) q := hmono
    · have hq : ¬ q ≤ b.hi := fun hq => hp (le_trans hpq hq)
      cases bs with
      | nil =>
        unfold isotonicPredict
        rw [if_neg hp, if_neg hq]
      | cons b1 bs' =>
        have hstep : ∀ r : ℚ, ¬ r ≤ b.hi →
            isotonicPredict (b :: b1 :: bs') r = isotonicPredict (b1 :: bs') r := by
          intro r hr
          unfold isotonicPredict
          rw [if_neg hr]
          rfl
        rw [hstep p hp, hstep q hq]
        exact ih (List.chain'_cons.mp hchain).2 p q hpq

/-- C4: for every weighted sample list, `IsotonicCalibrator.fit` produces an
ordered, non-overlapping bin list whose means are monotonically non-decreasing
(no adjacent pair violates monotonicity), so `predict` is non-decreasing
across input probabilities; fitting the two samples `(0.2, 1, 1)` and
`(0.4, 0, 1)` collapses to the single block `(0.2, 0.4, 0.5)` covering both
inputs. -/
theorem isotonic_fit_blocks_monotone (samples : List CalSample) :
    (isotonicFit samples).Chain' (fun a b => a.mean ≤ b.mean)
    ∧ (∀ b ∈ isotonicFit samples, b.lo ≤ b.hi)
    ∧ (isotonicFit samples).Chain' (fun a b => a.hi ≤ b.lo)
    ∧ (∀ p q : ℚ, p ≤ q →
        isotonicPredict (isotonicFit samples) p ≤ isotonicPredict (isotonicFit samples) q)
    ∧ isotonicFit [⟨1/5, 1, 1⟩, ⟨2/5, 0, 1⟩] = [⟨1/5, 2/5, 1/2⟩] := by
  haveI : IsTotal CalSample (fun a b => a.p ≤ b.p) := ⟨fun a b => le_total a.p b.p⟩
  haveI : IsTrans CalSample (fun a b => a.p ≤ b.p) := ⟨fun _ _ _ hab hbc => le_trans hab hbc⟩
  have hsorted : (List.insertionSort (fun a b : CalSample => a.p ≤ b.p) samples).Pairwise
      (fun a b => a.p ≤ b.p) :=
    List.sorted_insertionSort _ samples
  have hchain := foldl_pavPush_chain
    (List.insertionSort (fun a b : CalSample => a.p ≤ b.p) samples) [] (by simp)
  have hranges := foldl_pavPush_ranges
    (List.insertionSort (fun a b : CalSample => a.p ≤ b.p) samples) [] hsorted
    (by simp) (by simp) (by simp)
  have hmean_chain : (isotonicFit samples).Chain' (fun a b => a.mean ≤ b.mean) := by
    unfold isotonicFit
    rw [List.chain'_map, List.chain'_reverse]
    exact hchain
  have hwf : ∀ b ∈ isotonicFit samples, b.lo ≤ b.hi := by
    unfold isotonicFit
    intro b hb
    simp only [List.mem_map, List.mem_reverse] at hb
    obtain ⟨c, hc, hcb⟩ := hb
    rw [← hcb]
    exact hranges.2 c hc
  have hrange_chain : (isotonicFit samples).Chain' (fun a b => a.hi ≤ b.lo) := by
    unfold isotonicFit
    rw [List.chain'_map, List.chain'_reverse]
    exact List.Chain'.imp (fun a b h => h) hranges.1.chain'
  refine ⟨hmean_chain, hwf, hrange_chain, isotonicPredict_mono _ hmean_chain, ?_⟩
  show isotonicFit [⟨1/5, 1, 1⟩, ⟨2/5, 0, 1⟩] = [⟨1/5, 2/5, 1/2⟩]
  unfold isotonicFit
  norm_num [List.insertionSort, List.orderedInsert, pavPush, blockMean]

/-- C4 witness: monotone prediction across two concrete inputs via the
monotonicity conjunct of the fit theorem. -/
theorem isotonic_fit_blocks_monotone_witness :
    (1:ℚ)/10 ≤ 3/10 ∧
    isotonicPredict (isotonicFit [⟨1/5, 1, 1⟩, ⟨2/5, 0, 1⟩]) (1/10) ≤
      isotonicPredict (isotonicFit [⟨1/5, 1, 1⟩, ⟨2/5, 0, 1⟩]) (3/10) :=
  ⟨by norm_num,
   (isotonic_fit_blocks_monotone [⟨1/5, 1, 1⟩, ⟨2/5, 0, 1⟩]).2.2.2.1 (1/10) (3/10)
     (by norm_num)⟩

/-! Elementary facts about `listMax` / `listMin` / running maxima, used for
the drawdown bounds. -/

theorem foldl_max_init_le (l : List ℚ) : ∀ i : ℚ, i ≤ l.foldl max i := by
  induction l with
  | nil => intro i; exact le_refl i
  | cons x xs ih =>
    intro i
    exact le_trans (le_max_left i x) (ih (max i x))

theorem foldl_max_le (l : List ℚ) :
    ∀ i B : ℚ, i ≤ B → (∀ x ∈ l, x ≤ B) → l.foldl max i ≤ B := by
  induction l with
  | nil => intro i B hi _; exact hi
  | cons x xs ih =>
    intro i B hi hall
    exact ih _ B (max_le hi (hall x (by simp))) (fun y hy => hall y (by simp [hy]))

theorem le_foldl_max (l : List ℚ) :
    ∀ i x : ℚ, x ∈ l → x ≤ l.foldl max i := by
  induction l with
  | nil => intro i x hx; exact absurd hx (by simp)
  | cons y ys ih =>
    intro i x hx
    rcases List.mem_cons.mp hx with hx | hx
    · subst hx
      exact le_trans (le_max_right i x) (foldl_max_init_le ys _)
    · exact ih _ x hx

theorem foldl_min_le_init (l : List ℚ) : ∀ i : ℚ, l.foldl min i ≤ i := by
  induction l with
  | nil => intro i; exact le_refl i
  | cons x xs ih =>
    intro i
    exact le_trans (ih (min i x)) (min_le_left i x)

theorem foldl_min_le_mem (l : List ℚ) :
    ∀ i x : ℚ, x ∈ l → l.foldl min i ≤ x := by
  induction l with
  | nil => intro i x hx; exact absurd hx (by simp)
  | cons y ys ih =>
    intro i x hx
    rcases List.mem_cons.mp hx with hx | hx
    · subst hx
      exact le_trans (foldl_min_le_init ys (min i x)) (min_le_right i x)
    · exact ih _ x hx

theorem listMin_le_listMax (l : List ℚ) (h : l ≠ []) : listMin l ≤ listMax l := by
  cases l with
  | nil => exact absurd rfl h
  | cons x xs =>
    unfold listMin listMax
    exact le_trans (foldl_min_le_init xs x) (foldl_max_init_le xs x)

/-- Every drawdown entry built from a running maximum that starts at `m` is
bounded by `Mx - mn` when `m` and the values are bounded by `Mx` below `mn`. -/
theorem zipWith_drawdown_le (xs : List ℚ) :
    ∀ m Mx mn : ℚ, m ≤ Mx → (∀ x ∈ xs, x ≤ Mx) → (∀ x ∈ xs, mn ≤ x) →
    ∀ d ∈ List.zipWith (fun a b => a - b) (runMaxFrom m xs) xs, d ≤ Mx - mn := by
  induction xs with
  | nil => intro m Mx mn _ _ _ d hd; exact absurd hd (by simp [runMaxFrom])
  | cons x xs' ih =>
    intro m Mx mn hm hub hlb d hd
    rw [runMaxFrom] at hd
    simp only [List.zipWith_cons_cons, List.mem_cons] at hd
    rcases hd with hd | hd
    · subst hd
      have h1 : max m x ≤ Mx := max_le hm (hub x (by simp))
      have h2 : mn ≤ x := hlb x (by simp)
      linarith
    · exact ih (max m x) Mx mn (max_le hm (hub x (by simp)))
        (fun y hy => hub y (by simp [hy])) (fun y hy => hlb y (by simp [hy])) d hd

/-- The drawdown of a nonempty bankroll sequence is nonnegative and at most
the peak minus the minimum of the sequence. -/
theorem maxDrawdownOf_bounds (bs : List ℚ) (h : bs ≠ []) :
    0 ≤ maxDrawdownOf bs ∧ maxDrawdownOf bs ≤ listMax bs - listMin bs := by
  cases bs with
  | nil => exact absurd rfl h
  | cons x xs =>
    unfold maxDrawdownOf runningMax
    simp only [List.zipWith_cons_cons, sub_self]
    unfold listMax
    constructor
    · exact foldl_max_init_le _ 0
    · have hminmax : listMin (x :: xs) ≤ listMax (x :: xs) :=
        listMin_le_listMax (x :: xs) (by simp)
      refine foldl_max_le _ 0 (listMax (x :: xs) - listMin (x :: xs)) (by linarith) ?_
      intro d hd
      refine zipWith_drawdown_le xs x (listMax (x :: xs)) (listMin (x :: xs)) ?_ ?_ ?_ d hd
      · show x ≤ listMax (x :: xs)
        unfold listMax
        exact foldl_max_init_le xs x
      · intro y hy
        show y ≤ listMax (x :: xs)
        unfold listMax
        exact le_foldl_max xs x y hy
      · intro y hy
        show listMin (x :: xs) ≤ y
        unfold listMin
        exact foldl_min_le_mem xs x y hy

/-- Whatever `run_backtest` returns, its drawdown, ledger, peak and final
metrics are internally coherent: the reported `max_drawdown` is exactly
`maxDrawdownOf` of the ledger's bankroll column. -/
theorem run_backtest_maxDrawdown_eq (rows : List BtRow) (evThreshold stakeSize : ℚ)
    (minGames : ℕ) (b : BacktestResult)
    (hok : run_backtest rows evThreshold stakeSize minGames = Except.ok b) :
    b.maxDrawdown = maxDrawdownOf (b.bets.map Bet.bankroll) := by
  unfold run_backtest at hok
  cases hfold : btFold evThreshold stakeSize ⟨[], 0⟩ (rows.drop minGames) with
  | error e => rw [hfold] at hok; exact Except.noConfusion hok
  | ok st =>
    rw [hfold] at hok
    dsimp only at hok
    by_cases hb : st.bets = []
    · rw [if_pos hb] at hok
      have := Except.ok.inj hok
      rw [← this]
      simp [maxDrawdownOf, runningMax, listMax]
    · rw [if_neg hb] at hok
      have := Except.ok.inj hok
      rw [← this]

/-- C7 amended: for every backtest run with at least one placed bet, the
reported `max_drawdown` — computed over the bankroll values recorded at each
placed bet, not at every input row — is always ≥ 0 and at most the peak
bankroll minus the minimum bankroll recorded over those bets. -/
theorem run_backtest_drawdown_amended (rows : List BtRow) (evThreshold stakeSize : ℚ)
    (minGames : ℕ) (b : BacktestResult)
    (hok : run_backtest rows evThreshold stakeSize minGames = Except.ok b)
    (hbets : b.bets ≠ []) :
    0 ≤ b.maxDrawdown ∧ b.maxDrawdown ≤ bankrollPeak b - bankrollMin b := by
  rw [run_backtest_maxDrawdown_eq rows evThreshold stakeSize minGames b hok]
  unfold bankrollPeak bankrollMin
  exact maxDrawdownOf_bounds (b.bets.map Bet.bankroll) (by simpa using hbets)

/-- C7 counterexample: a single losing bet (model says away, home wins, both
sides priced at -110) drives the bankroll to -1; the reported max drawdown is 0, but the
peak bankroll value reached is -1, so `max_drawdown ≤ peak` is false. -/
theorem run_backtest_drawdown_counterexample :
    run_backtest [⟨1, 1, 0, 1, "home", some (-110, -110)⟩] (1/100) 1 0 =
      Except.ok
        { totalBets := 1, totalStaked := 1, totalProfit := -1, roi := -100,
          winRate := 0, maxDrawdown := 0, finalBankroll := -1,
          bets := [{ gameId := 1, date := 1, side := Side.away, odds := -110,
                     stake := 1, ev := 10/11, edgePct := 50, won := false,
                     profit := -1, bankroll := -1 }] }
    ∧ bankrollPeak
        { totalBets := 1, totalStaked := 1, totalProfit := -1, roi := -100,
          winRate := 0, maxDrawdown := 0, finalBankroll := -1,
          bets := [{ gameId := 1, date := 1, side := Side.away, odds := -110,
                     stake := 1, ev := 10/11, edgePct := 50, won := false,
                     profit := -1, bankroll := -1 }] } = -1
    ∧ ¬ ((0:ℚ) ≤ -1) := by
  refine ⟨?_, ?_, by norm_num⟩
  · norm_num [run_backtest, btFold, btStep, compute_edge_from_american,
      american_to_implied_prob, american_to_decimal, de_vig, expected_value,
      chooseSide, sideStr, maxDrawdownOf, runningMax, runMaxFrom, listMax]
    decide
  · norm_num [bankrollPeak, listMax]

/-- C7 witness: the amended drawdown bounds applied to a concrete one-bet
run (a winning home bet). -/
theorem run_backtest_drawdown_amended_witness :
    run_backtest [⟨2, 1, 1, 0, "home", some (-110, -110)⟩] (1/100) 1 0 =
      Except.ok
        { totalBets := 1, totalStaked := 1, totalProfit := 10/11, roi := 1000/11,
          winRate := 100, maxDrawdown := 0, finalBankroll := 10/11,
          bets := [{ gameId := 2, date := 1, side := Side.home, odds := -110,
                     stake := 1, ev := 10/11, edgePct := 50, won := true,
                     profit := 10/11, bankroll := 10/11 }] }
    ∧ (0:ℚ) ≤ BacktestResult.maxDrawdown
        { totalBets := 1, totalStaked := 1, totalProfit := 10/11, roi := 1000/11,
          winRate := 100, maxDrawdown := 0, finalBankroll := 10/11,
          bets := [{ gameId := 2, date := 1, side := Side.home, odds := -110,
                     stake := 1, ev := 10/11, edgePct := 50, won := true,
                     profit := 10/11, bankroll := 10/11 }] }
    ∧ BacktestResult.maxDrawdown
        { totalBets := 1, totalStaked := 1, totalProfit := 10/11, roi := 1000/11,
          winRate := 100, maxDrawdown := 0, finalBankroll := 10/11,
          bets := [{ gameId := 2, date := 1, side := Side.home, odds := -110,
                     stake := 1, ev := 10/11, edgePct := 50, won := true,
                     profit := 10/11, bankroll := 10/11 }] } ≤
      bankrollPeak
        { totalBets := 1, totalStaked := 1, totalProfit := 10/11, roi := 1000/11,
          winRate := 100, maxDrawdown := 0, finalBankroll := 10/11,
          bets := [{ gameId := 2, date := 1, side := Side.home, odds := -110,
                     stake := 1, ev := 10/11, edgePct := 50, won := true,
                     profit := 10/11, bankroll := 10/11 }] } -
      bankrollMin
        { totalBets := 1, totalStaked := 1, totalProfit := 10/11, roi := 1000/11,
          winRate := 100, maxDrawdown := 0, finalBankroll := 10/11,
          bets := [{ gameId := 2, date := 1, side := Side.home, odds := -110,
                     stake := 1, ev := 10/11, edgePct := 50, won := true,
                     profit := 10/11, bankroll := 10/11 }] } := by
  have hok : run_backtest [⟨2, 1, 1, 0, "home", some (-110, -110)⟩] (1/100) 1 0 =
      Except.ok
        { totalBets := 1, totalStaked := 1, totalProfit := 10/11, roi := 1000/11,
          winRate := 100, maxDrawdown := 0, finalBankroll := 10/11,
          bets := [{ gameId := 2, date := 1, side := Side.home, odds := -110,
                     stake := 1, ev := 10/11, edgePct := 50, won := true,
                     profit := 10/11, bankroll := 10/11 }] } := by
    norm_num [run_backtest, btFold, btStep, compute_edge_from_american,
      american_to_implied_prob, american_to_decimal, de_vig, expected_value,
      chooseSide, sideStr, maxDrawdownOf, runningMax, runMaxFrom, listMax]
  have hb := run_backtest_drawdown_amended
    [⟨2, 1, 1, 0, "home", some (-110, -110)⟩] (1/100) 1 0 _ hok (by simp)
  exact ⟨hok, hb.1, hb.2⟩

/-! Elo rating-book bookkeeping lemmas: accessors, parameter preservation,
and untouched teams keeping their ratings. -/

theorem getRating_fst (s : EloSystem) (t : String) :
    (getRating s t).1 = ratingOf s t := by
  unfold getRating ratingOf
  cases h : s.ratings.lookup t <;> simp [h]

theorem getRating_snd_initialElo (s : EloSystem) (t : String) :
    (getRating s t).2.initialElo = s.initialElo := by
  unfold getRating
  cases h : s.ratings.lookup t <;> rfl

theorem getRating_snd_kFactor (s : EloSystem) (t : String) :
    (getRating s t).2.kFactor = s.kFactor := by
  unfold getRating
  cases h : s.ratings.lookup t <;> rfl

theorem getRating_snd_homeAdvantage (s : EloSystem) (t : String) :
    (getRating s t).2.homeAdvantage = s.homeAdvantage := by
  unfold getRating
  cases h : s.ratings.lookup t <;> rfl

theorem lookup_dictInsert_ne (l : List (String × ℝ)) (team t : String) (r : ℝ)
    (h : t ≠ team) : (dictInsert l team r).lookup t = l.lookup t := by
  induction l with
  | nil =>
    simp [dictInsert, List.lookup, beq_false_of_ne h]
  | cons p rest ih =>
    obtain ⟨t', v⟩ := p
    unfold dictInsert
    by_cases ht' : t' = team
    · rw [if_pos ht']
      subst ht'
      simp [List.lookup, beq_false_of_ne h]
    · rw [if_neg ht']
      by_cases htt : t = t'
      · subst htt
        simp [List.lookup]
      · simp [List.lookup, beq_false_of_ne htt, ih]

theorem lookup_dictInsert_self (l : List (String × ℝ)) (team : String) (r : ℝ) :
    (dictInsert l team r).lookup team = some r := by
  induction l with
  | nil => simp [dictInsert, List.lookup]
  | cons p rest ih =>
    obtain ⟨t', v⟩ := p
    unfold dictInsert
    by_cases ht' : t' = team
    · rw [if_pos ht']
      simp [List.lookup]
    · rw [if_neg ht']
      simp [List.lookup, beq_false_of_ne (fun he => ht' he.symm), ih]

theorem ratingOf_setRating_ne (s : EloSystem) (team t : String) (r : ℝ)
    (h : t ≠ team) : ratingOf (setRating s team r) t = ratingOf s t := by
  unfold ratingOf setRating
  rw [lookup_dictInsert_ne s.ratings team t r h]

theorem ratingOf_setRating_self (s : EloSystem) (team : String) (r : ℝ) :
    ratingOf (setRating s team r) team = r := by
  unfold ratingOf setRating
  rw [lookup_dictInsert_self s.ratings team r]
  rfl

theorem predict_game_snd_initialElo (s : EloSystem) (h a : String) :
    (predict_game s h a).2.initialElo = s.initialElo := by
  unfold predict_game
  rw [getRating_snd_initialElo, getRating_snd_initialElo]

theorem predict_game_snd_kFactor (s : EloSystem) (h a : String) :
    (predict_game s h a).2.kFactor = s.kFactor := by
  unfold predict_game
  rw [getRating_snd_kFactor, getRating_snd_kFactor]

theorem predict_game_snd_homeAdvantage (s : EloSystem) (h a : String) :
    (predict_game s h a).2.homeAdvantage = s.homeAdvantage := by
  unfold predict_game
  rw [getRating_snd_homeAdvantage, getRating_snd_homeAdvantage]

theorem update_ratings_snd_initialElo (s : EloSystem) (h a : String) (hs as' : ℤ) :
    (update_ratings s h a hs as').2.initialElo = s.initialElo := by
  unfold update_ratings setRating
  rw [getRating_snd_initialElo, getRating_snd_initialElo]

theorem update_ratings_snd_kFactor (s : EloSystem) (h a : String) (hs as' : ℤ) :
    (update_ratings s h a hs as').2.kFactor = s.kFactor := by
  unfold update_ratings setRating
  rw [getRating_snd_kFactor, getRating_snd_kFactor]

theorem update_ratings_snd_homeAdvantage (s : EloSystem) (h a : String) (hs as' : ℤ) :
    (update_ratings s h a hs as').2.homeAdvantage = s.homeAdvantage := by
  unfold update_ratings setRating
  rw [getRating_snd_homeAdvantage, getRating_snd_homeAdvantage]

theorem eloGameStep_snd_initialElo (s : EloSystem) (g : GameRec) :
    (eloGameStep s g).2.initialElo = s.initialElo := by
  unfold eloGameStep
  cases g.homeScore <;> cases g.awayScore <;>
    simp [update_ratings_snd_initialElo, predict_game_snd_initialElo,
      getRating_snd_initialElo]

theorem eloGameStep_snd_kFactor (s : EloSystem) (g : GameRec) :
    (eloGameStep s g).2.kFactor = s.kFactor := by
  unfold eloGameStep
  cases g.homeScore <;> cases g.awayScore <;>
    simp [update_ratings_snd_kFactor, predict_game_snd_kFactor,
      getRating_snd_kFactor]

theorem eloGameStep_snd_homeAdvantage (s : EloSystem) (g : GameRec) :
    (eloGameStep s g).2.homeAdvantage = s.homeAdvantage := by
  unfold eloGameStep
  cases g.homeScore <;> cases g.awayScore <;>
    simp [update_ratings_snd_homeAdvantage, predict_game_snd_homeAdvantage,
      getRating_snd_homeAdvantage]

theorem stateAfter_initialElo (gs : List GameRec) :
    ∀ s : EloSystem, (stateAfter s gs).initialElo = s.initialElo := by
  induction gs with
  | nil => intro s; rfl
  | cons g rest ih =>
    intro s
    rw [stateAfter, ih, eloGameStep_snd_initialElo]

theorem stateAfter_homeAdvantage (gs : List GameRec) :
    ∀ s : EloSystem, (stateAfter s gs).homeAdvantage = s.homeAdvantage := by
  induction gs with
  | nil => intro s; rfl
  | cons g rest ih =>
    intro s
    rw [stateAfter, ih, eloGameStep_snd_homeAdvantage]

theorem ratingOf_update_ratings_ne (s : EloSystem) (h a t : String) (hs as' : ℤ)
    (hth : t ≠ h) (hta : t ≠ a) :
    ratingOf (update_ratings s h a hs as').2 t = ratingOf s t := by
  unfold update_ratings
  rw [ratingOf_setRating_ne _ _ _ _ hta, ratingOf_setRating_ne _ _ _ _ hth,
    ratingOf_getRating, ratingOf_getRating]

theorem ratingOf_eloGameStep_ne (s : EloSystem) (g : GameRec) (t : String)
    (ht : t ∉ gameTeams g) :
    ratingOf (eloGameStep s g).2 t = ratingOf s t := by
  have hth : t ≠ g.homeTeam := fun he => ht (by simp [gameTeams, he])
  have hta : t ≠ g.awayTeam := fun he => ht (by simp [gameTeams, he])
  unfold eloGameStep
  cases g.homeScore <;> cases g.awayScore <;>
    simp only [] <;>
    first
    | rw [ratingOf_update_ratings_ne _ _ _ _ _ _ hth hta, ratingOf_predict_game,
        ratingOf_getRating, ratingOf_getRating]
    | rw [ratingOf_predict_game, ratingOf_getRating, ratingOf_getRating]

theorem ratingOf_stateAfter_untouched (gs : List GameRec) :
    ∀ (s : EloSystem) (t : String), (∀ g ∈ gs, t ∉ gameTeams g) →
    ratingOf (stateAfter s gs) t = ratingOf s t := by
  induction gs with
  | nil => intro s t _; rfl
  | cons g rest ih =>
    intro s t h
    rw [stateAfter, ih _ t (fun g' hg' => h g' (by simp [hg'])),
      ratingOf_eloGameStep_ne s g t (h g (by simp))]

/-- After a home win (`homeScore > awayScore`) between distinct teams, the
new ratings are the additive updates computed from the pre-update ratings and
the home-advantaged expectation. -/
theorem ratingOf_update_home_win (s : EloSystem) (h a : String) (hs as' : ℤ)
    (hne : h ≠ a) (hws : as' < hs) :
    ratingOf (update_ratings s h a hs as').2 h =
      ratingOf s h + s.kFactor *
        (1 - expected_score (ratingOf s h + s.homeAdvantage) (ratingOf s a))
    ∧ ratingOf (update_ratings s h a hs as').2 a =
      ratingOf s a + s.kFactor *
        (0 - (1 - expected_score (ratingOf s h + s.homeAdvantage) (ratingOf s a))) := by
  unfold update_ratings
  simp only [getRating_fst, ratingOf_getRating]
  rw [if_pos hws]
  dsimp only
  constructor
  · rw [ratingOf_setRating_ne _ _ _ _ hne, ratingOf_setRating_self]
  · rw [ratingOf_setRating_self]

/-- The prediction phase of an `eloGameStep` (the lazy rating recordings)
never changes any reported rating. -/
theorem ratingOf_prediction_phase (s : EloSystem) (h a t : String) :
    ratingOf (predict_game (getRating (getRating s h).2 a).2 h a).2 t = ratingOf s t := by
  rw [ratingOf_predict_game, ratingOf_getRating, ratingOf_getRating]

/-- The feature row emitted for a game carries the point-in-time ratings and
the home-advantaged logistic prediction of the incoming state. -/
theorem eloGameStep_feature (s : EloSystem) (g : GameRec) :
    (eloGameStep s g).1.homeElo = ratingOf s g.homeTeam
    ∧ (eloGameStep s g).1.awayElo = ratingOf s g.awayTeam
    ∧ (eloGameStep s g).1.pHome =
        expected_score (ratingOf s g.homeTeam + s.homeAdvantage) (ratingOf s g.awayTeam)
    ∧ (eloGameStep s g).1.pAway = 1 - (eloGameStep s g).1.pHome := by
  have hfst : (eloGameStep s g).1 =
      { gameId := g.gameId, date := g.date, homeTeam := g.homeTeam,
        awayTeam := g.awayTeam, homeElo := (getRating s g.homeTeam).1,
        awayElo := (getRating (getRating s g.homeTeam).2 g.awayTeam).1,
        eloDiff := (getRating s g.homeTeam).1 -
          (getRating (getRating s g.homeTeam).2 g.awayTeam).1,
        pHome := (predict_game (getRating (getRating s g.homeTeam).2 g.awayTeam).2
          g.homeTeam g.awayTeam).1.1,
        pAway := (predict_game (getRating (getRating s g.homeTeam).2 g.awayTeam).2
          g.homeTeam g.awayTeam).1.2,
        winner := g.winner } := by
    unfold eloGameStep
    cases g.homeScore <;> cases g.awayScore <;> rfl
  rw [hfst]
  unfold predict_game
  simp [getRating_fst, ratingOf_getRating, getRating_snd_homeAdvantage]

/-- The `i`-th feature row is computed exactly from the state reached after
the first `i` games. -/
theorem buildFrom_nth (gs : List GameRec) :
    ∀ (s : EloSystem) (i : ℕ) (g : GameRec), gs[i]? = some g →
    (buildEloFeaturesFrom s gs)[i]? =
      some ((eloGameStep (stateAfter s (gs.take i)) g).1) := by
  induction gs with
  | nil => intro s i g hg; simp at hg
  | cons g0 rest ih =>
    intro s i g hg
    cases i with
    | zero =>
      rw [List.getElem?_cons_zero] at hg
      have hg0 : g0 = g := Option.some.inj hg
      subst hg0
      rw [buildEloFeaturesFrom, List.getElem?_cons_zero]
      rfl
    | succ n =>
      rw [List.getElem?_cons_succ] at hg
      rw [buildEloFeaturesFrom, List.getElem?_cons_succ, ih _ n g hg]
      rfl

/-- Numeric estimate: `1 / (1 + 10 ^ (-1/4))` lies in `(0.6400, 0.6401)`. -/
theorem expected_home_first_game_bounds :
    0.6400 < 1 / (1 + (10:ℝ) ^ (-((1:ℝ)/4)))
    ∧ 1 / (1 + (10:ℝ) ^ (-((1:ℝ)/4))) < 0.6401 := by
  have hy4 : ((10:ℝ) ^ ((1:ℝ)/4)) ^ (4:ℕ) = 10 := by
    rw [← Real.rpow_natCast ((10:ℝ) ^ ((1:ℝ)/4)) 4,
      ← Real.rpow_mul (by norm_num : (0:ℝ) ≤ 10)]
    norm_num
  have hy0 : (0:ℝ) < (10:ℝ) ^ ((1:ℝ)/4) := Real.rpow_pos_of_pos (by norm_num) _
  have hylb : (1.7782:ℝ) < (10:ℝ) ^ ((1:ℝ)/4) := by
    apply lt_of_pow_lt_pow_left 4 (le_of_lt hy0)
    rw [hy4]
    norm_num
  have hyub : (10:ℝ) ^ ((1:ℝ)/4) < 1.7783 := by
    apply lt_of_pow_lt_pow_left 4 (by norm_num)
    rw [hy4]
    norm_num
  have hneg : (10:ℝ) ^ (-((1:ℝ)/4)) = ((10:ℝ) ^ ((1:ℝ)/4))⁻¹ :=
    Real.rpow_neg (by norm_num) _
  have hinv_ub : ((10:ℝ) ^ ((1:ℝ)/4))⁻¹ < (1.7782:ℝ)⁻¹ :=
    inv_lt_inv_of_lt (by norm_num) hylb
  have hinv_lb : (1.7783:ℝ)⁻¹ < ((10:ℝ) ^ ((1:ℝ)/4))⁻¹ :=
    inv_lt_inv_of_lt hy0 hyub
  have hden : (0:ℝ) < 1 + (10:ℝ) ^ (-((1:ℝ)/4)) := by
    rw [hneg]
    positivity
  constructor
  · rw [lt_div_iff hden, hneg]
    nlinarith [hinv_ub]
  · rw [div_lt_iff hden, hneg]
    nlinarith [hinv_lb]

/-- Processing a home-win game between distinct teams updates both ratings
additively from the incoming state. -/
theorem ratingOf_eloGameStep_home_win (s : EloSystem) (g : GameRec) (hs as' : ℤ)
    (hne : g.homeTeam ≠ g.awayTeam) (hsc : g.homeScore = some hs)
    (hac : g.awayScore = some as') (hws : as' < hs) :
    ratingOf (eloGameStep s g).2 g.homeTeam =
      ratingOf s g.homeTeam + s.kFactor *
        (1 - expected_score (ratingOf s g.homeTeam + s.homeAdvantage) (ratingOf s g.awayTeam))
    ∧ ratingOf (eloGameStep s g).2 g.awayTeam =
      ratingOf s g.awayTeam + s.kFactor *
        (0 - (1 - expected_score (ratingOf s g.homeTeam + s.homeAdvantage)
          (ratingOf s g.awayTeam))) := by
  have hsnd : (eloGameStep s g).2 =
      (update_ratings
        (predict_game (getRating (getRating s g.homeTeam).2 g.awayTeam).2
          g.homeTeam g.awayTeam).2
        g.homeTeam g.awayTeam hs as').2 := by
    unfold eloGameStep
    rw [hsc, hac]
  have hk : (predict_game (getRating (getRating s g.homeTeam).2 g.awayTeam).2
      g.homeTeam g.awayTeam).2.kFactor = s.kFactor := by
    rw [predict_game_snd_kFactor, getRating_snd_kFactor, getRating_snd_kFactor]
  have hha : (predict_game (getRating (getRating s g.homeTeam).2 g.awayTeam).2
      g.homeTeam g.awayTeam).2.homeAdvantage = s.homeAdvantage := by
    rw [predict_game_snd_homeAdvantage, getRating_snd_homeAdvantage,
      getRating_snd_homeAdvantage]
  have hupd := ratingOf_update_home_win
    (predict_game (getRating (getRating s g.homeTeam).2 g.awayTeam).2
      g.homeTeam g.awayTeam).2
    g.homeTeam g.awayTeam hs as' hne hws
  rw [hsnd]
  rw [hupd.1, hupd.2, hk, hha,
    ratingOf_prediction_phase, ratingOf_prediction_phase]
  exact ⟨rfl, rfl⟩

/-- C1: point-in-time causality of `build_elo_features` — on a
chronologically sorted games list, each game's feature row (its `home_elo`,
`away_elo`, `p_home`, `p_away`) is computed exactly from the rating state
built from the strictly earlier games; a first game between previously unseen
teams is predicted with both teams at the initial rating; and with the
defaults `initial = 1500`, `k = 20`, `homeAdvantage = 100` that first game's
expected home probability equals `1 / (1 + 10 ^ (-100/400))` (within 0.001 of
0.6400), and after a home win the home rating is within 0.01 of 1507.2 and
the away rating within 0.01 of 1492.8. -/
theorem build_elo_features_point_in_time :
    (∀ (ie k ha : ℝ) (gs : List GameRec), Chronological gs →
      ∀ (i : ℕ) (g : GameRec), gs[i]? = some g →
        (build_elo_features ie k ha gs)[i]? =
          some ((eloGameStep (stateAfter (initSystem ie k ha) (gs.take i)) g).1))
    ∧ (∀ (ie k ha : ℝ) (gs : List GameRec), Chronological gs →
      ∀ (i : ℕ) (g : GameRec), gs[i]? = some g →
        (∀ g' ∈ gs.take i, g.homeTeam ∉ gameTeams g' ∧ g.awayTeam ∉ gameTeams g') →
        ∀ f : EloFeature, (build_elo_features ie k ha gs)[i]? = some f →
          f.homeElo = ie ∧ f.awayElo = ie ∧
          f.pHome = expected_score (ie + ha) ie ∧ f.pAway = 1 - f.pHome)
    ∧ (∀ f : EloFeature,
        (build_elo_features 1500 20 100
          [⟨1, 0, "H", "A", some 1, some 0, none⟩])[0]? = some f →
        f.pHome = 1 / (1 + (10:ℝ) ^ (-(100:ℝ) / 400)) ∧ |f.pHome - 0.64| < 0.001)
    ∧ |ratingOf (stateAfter (initSystem 1500 20 100)
        [⟨1, 0, "H", "A", some 1, some 0, none⟩]) "H" - 1507.2| < 0.01
    ∧ |ratingOf (stateAfter (initSystem 1500 20 100)
        [⟨1, 0, "H", "A", some 1, some 0, none⟩]) "A" - 1492.8| < 0.01 := by
  have hpref : ∀ (ie k ha : ℝ) (gs : List GameRec),
      ∀ (i : ℕ) (g : GameRec), gs[i]? = some g →
      (build_elo_features ie k ha gs)[i]? =
        some ((eloGameStep (stateAfter (initSystem ie k ha) (gs.take i)) g).1) := by
    intro ie k ha gs i g hg
    unfold build_elo_features
    exact buildFrom_nth gs (initSystem ie k ha) i g hg
  have hinit_rating : ∀ (ie k ha : ℝ) (t : String),
      ratingOf (initSystem ie k ha) t = ie := fun _ _ _ _ => rfl
  have hinitk : ∀ ie k ha : ℝ, (initSystem ie k ha).kFactor = k := fun _ _ _ => rfl
  have hinitha : ∀ ie k ha : ℝ, (initSystem ie k ha).homeAdvantage = ha :=
    fun _ _ _ => rfl
  have hexp : expected_score ((1500:ℝ) + 100) 1500
      = 1 / (1 + (10:ℝ) ^ (-((1:ℝ)/4))) := by
    unfold expected_score
    norm_num
  have hbounds := expected_home_first_game_bounds
  refine ⟨fun ie k ha gs _ => hpref ie k ha gs, ?_, ?_, ?_, ?_⟩
  · intro ie k ha gs _ i g hg hunseen f hf
    rw [hpref ie k ha gs i g hg] at hf
    have hfeq := Option.some.inj hf
    have hfields := eloGameStep_feature (stateAfter (initSystem ie k ha) (gs.take i)) g
    have hrh : ratingOf (stateAfter (initSystem ie k ha) (gs.take i)) g.homeTeam = ie := by
      rw [ratingOf_stateAfter_untouched (gs.take i) _ _
        (fun g' hg' => (hunseen g' hg').1)]
      exact hinit_rating ie k ha g.homeTeam
    have hra : ratingOf (stateAfter (initSystem ie k ha) (gs.take i)) g.awayTeam = ie := by
      rw [ratingOf_stateAfter_untouched (gs.take i) _ _
        (fun g' hg' => (hunseen g' hg').2)]
      exact hinit_rating ie k ha g.awayTeam
    have hadv : (stateAfter (initSystem ie k ha) (gs.take i)).homeAdvantage = ha := by
      rw [stateAfter_homeAdvantage]
      rfl
    rw [← hfeq]
    refine ⟨?_, ?_, ?_, hfields.2.2.2⟩
    · rw [hfields.1, hrh]
    · rw [hfields.2.1, hra]
    · rw [hfields.2.2.1, hrh, hra, hadv]
  · intro f hf
    rw [hpref 1500 20 100 _ 0 _ rfl] at hf
    have hfeq := Option.some.inj hf
    have hfields := eloGameStep_feature
      (stateAfter (initSystem 1500 20 100) ([] : List GameRec))
      ⟨1, 0, "H", "A", some 1, some 0, none⟩
    have hp : f.pHome = expected_score ((1500:ℝ) + 100) 1500 := by
      rw [← hfeq]
      exact hfields.2.2.1
    have hx : (-(100:ℝ)/400) = (-((1:ℝ)/4)) := by norm_num
    constructor
    · rw [hp, hexp, hx]
    · rw [hp, hexp, abs_lt]
      constructor <;> nlinarith [hbounds.1, hbounds.2]
  · have hstep := ratingOf_eloGameStep_home_win (initSystem 1500 20 100)
      ⟨1, 0, "H", "A", some 1, some 0, none⟩ 1 0 (by decide) rfl rfl (by norm_num)
    have hone : stateAfter (initSystem 1500 20 100)
        [⟨1, 0, "H", "A", some 1, some 0, none⟩] =
        (eloGameStep (initSystem 1500 20 100)
          ⟨1, 0, "H", "A", some 1, some 0, none⟩).2 := rfl
    rw [hone, hstep.1]
    simp only [hinit_rating, hinitk, hinitha]
    rw [hexp, abs_lt]
    constructor <;> nlinarith [hbounds.1, hbounds.2]
  · have hstep := ratingOf_eloGameStep_home_win (initSystem 1500 20 100)
      ⟨1, 0, "H", "A", some 1, some 0, none⟩ 1 0 (by decide) rfl rfl (by norm_num)
    have hone : stateAfter (initSystem 1500 20 100)
        [⟨1, 0, "H", "A", some 1, some 0, none⟩] =
        (eloGameStep (initSystem 1500 20 100)
          ⟨1, 0, "H", "A", some 1, some 0, none⟩).2 := rfl
    rw [hone, hstep.2]
    simp only [hinit_rating, hinitk, hinitha]
    rw [hexp, abs_lt]
    constructor <;> nlinarith [hbounds.1, hbounds.2]

/-- C1 witness: the prefix property applied to a concrete chronological
two-game list at index 1. -/
theorem build_elo_features_point_in_time_witness :
    Chronological [⟨1, 0, "H", "A", some 1, some 0, none⟩,
      ⟨2, 1, "H", "A", some 0, some 1, none⟩] ∧
    ([⟨1, 0, "H", "A", some 1, some 0, none⟩,
      ⟨2, 1, "H", "A", some 0, some 1, none⟩] : List GameRec)[1]? =
      some ⟨2, 1, "H", "A", some 0, some 1, none⟩ ∧
    (build_elo_features 1500 20 100
      [⟨1, 0, "H", "A", some 1, some 0, none⟩,
       ⟨2, 1, "H", "A", some 0, some 1, none⟩])[1]? =
      some ((eloGameStep
        (stateAfter (initSystem 1500 20 100)
          ([⟨1, 0, "H", "A", some 1, some 0, none⟩,
            ⟨2, 1, "H", "A", some 0, some 1, none⟩].take 1))
        ⟨2, 1, "H", "A", some 0, some 1, none⟩).1) := by
  have hchrono : Chronological [⟨1, 0, "H", "A", some 1, some 0, none⟩,
      ⟨2, 1, "H", "A", some 0, some 1, none⟩] := by
    unfold Chronological
    norm_num [List.pairwise_cons]
  exact ⟨hchrono, rfl,
    build_elo_features_point_in_time.1 1500 20 100 _ hchrono 1 _ rfl⟩

end SportEdge
